import Mathlib

/-!
Verification of the reconciliation and sheet-generation pipeline of
`easy_access_cli.py` (class `EasyAccessTool`).

The polars `DataFrame`s manipulated by the tool are embedded shallowly:
a data frame is a column schema (ordered list of column names) together
with a list of rows, and a row is an ordered association list from column
names to cell values.  A cell value is either null, a string, or a date
(polars dtypes beyond these do not occur in the claims under study; the
sheet-reading validator casts every column to string anyway).

Each definition is translated from the corresponding place in
`easy_access_cli.py`; the source line is noted next to each definition.
-/

namespace EaCli

/-- A polars cell value: null, a UTF-8 string, or a date (year, month, day). -/
inductive Val where
  | null : Val
  | str : String → Val
  | date : Nat → Nat → Nat → Val
deriving DecidableEq, Repr

/-- A data-frame row: an ordered association list column-name ↦ value. -/
abbrev Row := List (String × Val)

/-- A polars `DataFrame`: a column schema plus a list of rows.  A well-formed
frame has every row's key list equal to the schema; operations below preserve
this, and theorems state it explicitly where needed. -/
structure DF where
  schema : List String
  rows : List Row
deriving DecidableEq, Repr

/-- Value of column `c` in row `r` (`pl.col(c)` on one row).  A missing column
is read as null; all embedded frames carry the columns they are read at. -/
def getVal (r : Row) (c : String) : Val :=
  match r.find? (fun p => p.1 == c) with
  | some p => p.2
  | none => .null

/-- Whether row `r` carries column `c` at all. -/
def hasCol (r : Row) (c : String) : Bool :=
  r.any (fun p => p.1 == c)

/-- polars join-key comparison: null keys match nothing (the default
`join_nulls=False`), otherwise keys match iff equal. -/
def keyMatch : Val → Val → Bool
  | .null, _ => false
  | _, .null => false
  | a, b => decide (a = b)

/-- polars `!=` used inside `filter`: comparisons involving null give null,
and null rows are dropped by `filter`, so they count as `false` here. -/
def valNe : Val → Val → Bool
  | .null, _ => false
  | _, .null => false
  | a, b => !(decide (a = b))

/-- `left.join(right, on=key, how="anti")` (easy_access_cli.py lines 534-538):
keep the left rows whose key matches no right row. -/
def antiJoin (l r : DF) (key : String) : DF :=
  ⟨l.schema,
   l.rows.filter (fun lr =>
     !(r.rows.any (fun rr => keyMatch (getVal lr key) (getVal rr key))))⟩

/-- polars suffixes a non-key right column with `_right` when its name
already occurs among the left columns. -/
def suffixIfClash (leftCols : List String) (c : String) : String :=
  if leftCols.contains c then c ++ "_right" else c

/-- The row `left.join(right, on=key, how="inner")` produces for one matching
pair: the left row followed by the right row's non-key entries, with clashing
names suffixed `_right`. -/
def joinedRow (leftCols : List String) (lr rr : Row) : Row :=
  lr ++ (rr.filter (fun p => !(p.1 == key0))).map
          (fun p => (suffixIfClash leftCols p.1, p.2))
where key0 := "material_id"

/-- `cur.join(prev, on="material_id", how="inner")`
(easy_access_cli.py lines 539-543). -/
def innerJoin (l r : DF) : DF :=
  ⟨l.schema ++ (r.schema.filter (fun c => !(c == "material_id"))).map
                 (suffixIfClash l.schema),
   l.rows.flatMap (fun lr =>
     (r.rows.filter (fun rr =>
        keyMatch (getVal lr "material_id") (getVal rr "material_id"))).map
       (joinedRow l.schema lr))⟩

/-- `df.filter(pred)`. -/
def filterRows (df : DF) (p : Row → Bool) : DF :=
  ⟨df.schema, df.rows.filter p⟩

/-- `df.select(pl.all().exclude(c))`: drop column `c`, keep every other
column (easy_access_cli.py lines 545-547: only `last_change_right` is
excluded; the remaining `*_right` join columns stay). -/
def selectExclude (df : DF) (c : String) : DF :=
  ⟨df.schema.filter (fun x => !(x == c)),
   df.rows.map (fun r => r.filter (fun p => !(p.1 == c)))⟩

/-- `df.drop_nulls(pl.col(c))` (easy_access_cli.py lines 547-549). -/
def dropNulls (df : DF) (c : String) : DF :=
  filterRows df (fun r => !(decide (getVal r c = Val.null)))

/-- Error message for a vertical `pl.concat` whose inputs disagree on
their column schemas (polars raises `ShapeError`). -/
def pconcatMsg : String := "ShapeError: column schemas differ in pl.concat"

/-- Vertical `pl.concat([a, b])`: requires both frames to share one schema,
otherwise polars raises. -/
def pconcat (a b : DF) : Except String DF :=
  if a.schema = b.schema then .ok ⟨a.schema, a.rows ++ b.rows⟩
  else .error pconcatMsg

/-- `not_in_faculty` (easy_access_cli.py lines 534-538): the newly-seen
subset, an anti-join of the normalized data against the read-back sheets. -/
def notInFaculty (cur prev : DF) : DF :=
  antiJoin cur prev "material_id"

/-- Filter `pl.col("last_change") != pl.col("last_change_right")`
(easy_access_cli.py line 544). -/
def diffLastChange (r : Row) : Bool :=
  valNe (getVal r "last_change") (getVal r "last_change_right")

/-- Filter `pl.col("status") == "Deleted"` (easy_access_cli.py line 550).
After the join, the unsuffixed `status` column is the CURRENT export's
status, not the previous record's (`status_right`). -/
def statusDeleted (r : Row) : Bool :=
  decide (getVal r "status" = Val.str "Deleted")

/-- `matching_id_diff_change` (easy_access_cli.py lines 539-551):
inner join on `material_id`, keep pairs whose `last_change` differs,
drop only the `last_change_right` column, drop null `material_id` rows,
keep rows whose (current) `status` is "Deleted". -/
def matchingIdDiffChange (cur prev : DF) : DF :=
  filterRows
    (dropNulls
      (selectExclude (filterRows (innerJoin cur prev) diffLastChange)
        "last_change_right")
      "material_id")
    statusDeleted

/-- The reconciliation core of `process_copyright_export`
(easy_access_cli.py lines 526-562), as a function of the normalized data
`cur` and the read-back faculty-sheet data `prev`.  Returns the data frame
left in `self.copyright_data` together with the `no_new_items` flag, or the
polars error raised.  When `prev` is empty the data is emitted unchanged
(bootstrap); otherwise the emitted frame is `not_in_faculty` when
`matching_id_diff_change` is empty, and `pl.concat` of the two otherwise. -/
def reconcile (cur prev : DF) : Except String (DF × Bool) :=
  if prev.rows.isEmpty then .ok (cur, false)
  else
    let anti := notInFaculty cur prev
    let changed := matchingIdDiffChange cur prev
    let flag := anti.rows.isEmpty && changed.rows.isEmpty
    if changed.rows.isEmpty then .ok (anti, flag)
    else
      match pconcat anti changed with
      | .ok out => .ok (out, flag)
      | .error e => .error e

/-- `EasyAccessTool.column_order` (easy_access_cli.py line 375): the fixed
35-column schema of every complete-data sheet. -/
def columnOrder : List String :=
  ["material_id", "period", "department", "course_code", "course_name",
   "url", "filename", "title", "owner", "filetype", "classification",
   "type", "ml_prediction", "manual_classification", "manual_identifier",
   "scope", "remarks", "auditor", "last_change", "status",
   "google_search_file", "isbn", "doi", "in_collection", "pagecount",
   "wordcount", "picturecount", "author", "publisher", "reliability",
   "pages_x_students", "count_students_registered",
   "retrieved_from_copyright_on", "workflow_status", "faculty"]

/-- Build a full 35-column row with the given `material_id`, `last_change`,
`status`, `department` and `faculty` values; every other cell is the empty
string.  Used to instantiate theorems on realistic frames. -/
def mkRow (id lc st dept fac : Val) : Row :=
  columnOrder.map (fun c =>
    (c, if c = "material_id" then id
        else if c = "last_change" then lc
        else if c = "status" then st
        else if c = "department" then dept
        else if c = "faculty" then fac
        else Val.str ""))

/-! ### Helper lemmas about the reconciliation embedding -/

theorem keyMatch_true_iff (a b : Val) (ha : a ≠ Val.null) :
    keyMatch a b = true ↔ b = a := by
  cases a with
  | null => exact absurd rfl ha
  | str s => cases b <;> simp [keyMatch] <;> exact eq_comm
  | date y m d => cases b <;> simp [keyMatch] <;> omega

theorem mem_antiJoin_iff (cur prev : DF) (r : Row) (hr : r ∈ cur.rows)
    (hid : getVal r "material_id" ≠ Val.null) :
    r ∈ (notInFaculty cur prev).rows ↔
      ∀ p ∈ prev.rows, getVal p "material_id" ≠ getVal r "material_id" := by
  show r ∈ cur.rows.filter _ ↔ _
  rw [List.mem_filter]
  simp only [hr, true_and, Bool.not_eq_true', List.any_eq_false]
  constructor
  · intro h p hp heq
    have := h p hp
    rw [keyMatch_true_iff _ _ hid] at this
    exact this heq
  · intro h p hp
    simp only [keyMatch_true_iff _ _ hid]
    exact fun heq => h p hp heq

theorem matching_rows_nil_of_prev_nil (cur prev : DF) (h : prev.rows = []) :
    (matchingIdDiffChange cur prev).rows = [] := by
  simp [matchingIdDiffChange, filterRows, dropNulls, selectExclude, innerJoin, h]

theorem matching_schema_eq (cur prev : DF) :
    (matchingIdDiffChange cur prev).schema =
      (cur.schema ++
        (prev.schema.filter (fun c => !(c == "material_id"))).map
          (suffixIfClash cur.schema)).filter
        (fun x => !(x == "last_change_right")) := rfl

theorem reconcile_error_of_matching_nonempty (cur prev : DF)
    (hcur : cur.schema = columnOrder) (hprev : prev.schema = columnOrder)
    (hne : (matchingIdDiffChange cur prev).rows ≠ []) :
    reconcile cur prev = .error pconcatMsg := by
  have hprevne : prev.rows ≠ [] := by
    intro h
    exact hne (matching_rows_nil_of_prev_nil cur prev h)
  have hmismatch : (notInFaculty cur prev).schema ≠
      (matchingIdDiffChange cur prev).schema := by
    rw [matching_schema_eq]
    show cur.schema ≠ _
    rw [hcur, hprev]
    decide
  unfold reconcile
  rw [if_neg (by simpa using hprevne)]
  simp only
  rw [if_neg (by simpa using hne)]
  unfold pconcat
  rw [if_neg hmismatch]

theorem reconcile_ok_out (cur prev : DF) (out : DF) (flag : Bool)
    (hprevne : prev.rows ≠ [])
    (h : reconcile cur prev = .ok (out, flag)) :
    out = notInFaculty cur prev ∧ (matchingIdDiffChange cur prev).rows = [] ∨
    out = ⟨cur.schema, (notInFaculty cur prev).rows ++
            (matchingIdDiffChange cur prev).rows⟩ ∧
      cur.schema = (matchingIdDiffChange cur prev).schema := by
  unfold reconcile at h
  rw [if_neg (by simpa using hprevne)] at h
  simp only at h
  by_cases hch : (matchingIdDiffChange cur prev).rows = []
  · rw [if_pos (by simpa using hch)] at h
    injection h with h1
    injection h1 with hout hflag
    exact Or.inl ⟨hout.symm, hch⟩
  · rw [if_neg (by simpa using hch)] at h
    unfold pconcat at h
    by_cases hs : (notInFaculty cur prev).schema =
        (matchingIdDiffChange cur prev).schema
    · rw [if_pos hs] at h
      injection h with h1
      injection h1 with hout hflag
      exact Or.inr ⟨hout.symm, hs⟩
    · rw [if_neg hs] at h
      exact Except.noConfusion h

/-! ### Concrete records used to instantiate the reconciliation claims -/

/-- Current-export record: id 42, changed on 2024-02-01, status Active. -/
def rowChangedActive : Row :=
  mkRow (.str "42") (.str "2024-02-01") (.str "Active") (.str "CS") (.str "EEMCS")

/-- Current-export record: id 42, changed on 2024-02-01, status Deleted. -/
def rowChangedDeleted : Row :=
  mkRow (.str "42") (.str "2024-02-01") (.str "Deleted") (.str "CS") (.str "EEMCS")

/-- Previously-recorded record: id 42, last_change 2024-01-01, status Deleted. -/
def rowPrevDeleted : Row :=
  mkRow (.str "42") (.str "2024-01-01") (.str "Deleted") (.str "CS") (.str "EEMCS")

/-- Previously-recorded record: id 42, last_change 2024-01-01, status Active. -/
def rowPrevActive : Row :=
  mkRow (.str "42") (.str "2024-01-01") (.str "Active") (.str "CS") (.str "EEMCS")

/-! ### Claim C2 -/

/-- Claim C2: a normalized record is in the "newly seen" subset
(`not_in_faculty`, the anti-join of lines 534-538) iff no previously-recorded
record carries the same `material_id`.  The record's own `material_id` is
assumed non-null, as the spec's data model guarantees for tracking-tool
exports (a null id matches nothing in a polars join). -/
theorem newly_seen_anti_join_complete (cur prev : DF) (r : Row)
    (hr : r ∈ cur.rows) (hid : getVal r "material_id" ≠ Val.null) :
    r ∈ (notInFaculty cur prev).rows ↔
      ∀ p ∈ prev.rows, getVal p "material_id" ≠ getVal r "material_id" :=
  mem_antiJoin_iff cur prev r hr hid

/-- Witness for C2 at a concrete input: a record with id 42 is newly seen
against a previous set whose only record has id 7. -/
theorem newly_seen_anti_join_complete_witness :
    rowChangedActive ∈
      (notInFaculty ⟨columnOrder, [rowChangedActive]⟩
        ⟨columnOrder,
         [mkRow (.str "7") (.str "2024-01-01") (.str "Active") (.str "CS")
            (.str "EEMCS")]⟩).rows :=
  (newly_seen_anti_join_complete _ _ _ (by decide) (by decide)).mpr (by decide)

/-! ### Claim C1 -/

/-- Claim C1 fails on the code: with a previous record of id 42, last_change
2024-01-01 and status "Deleted", and a current record of id 42, different
last_change and status "Active", the claim requires the current record to be
emitted (previous status is "Deleted"), but reconciliation succeeds with an
EMPTY emitted set: the `status == "Deleted"` filter on line 550 reads the
current export's `status` column, not the previous record's `status_right`. -/
theorem changed_admission_counterexample :
    reconcile ⟨columnOrder, [rowChangedActive]⟩ ⟨columnOrder, [rowPrevDeleted]⟩
        = .ok (⟨columnOrder, []⟩, true) ∧
    keyMatch (getVal rowChangedActive "material_id")
        (getVal rowPrevDeleted "material_id") = true ∧
    valNe (getVal rowChangedActive "last_change")
        (getVal rowPrevDeleted "last_change") = true ∧
    getVal rowPrevDeleted "status" = Val.str "Deleted" ∧
    rowChangedActive ∉ (⟨columnOrder, []⟩ : DF).rows :=
  ⟨rfl, by decide, by decide, by decide, by decide⟩

/-- Claim C1 (amended): over the 35-column schema, a record whose
`material_id` matches a previous record and whose `last_change` differs is
NEVER included in a successfully emitted set, whatever the previous status;
and whenever the `matching_id_diff_change` frame is non-empty (some
matching-id, different-change record has current status "Deleted"), the run
does not emit at all but fails with a `ShapeError` on `pl.concat`, because
`select(pl.all().exclude("last_change_right"))` leaves the other 33 `_right`
join columns in place and the two concatenated frames disagree on schema. -/
theorem changed_records_never_emitted :
    (∀ cur prev out : DF, ∀ flag : Bool, ∀ r : Row,
      cur.schema = columnOrder → prev.schema = columnOrder →
      reconcile cur prev = .ok (out, flag) → r ∈ cur.rows →
      (∃ p ∈ prev.rows,
        keyMatch (getVal r "material_id") (getVal p "material_id") = true ∧
        valNe (getVal r "last_change") (getVal p "last_change") = true) →
      r ∉ out.rows) ∧
    (∀ cur prev : DF,
      cur.schema = columnOrder → prev.schema = columnOrder →
      (matchingIdDiffChange cur prev).rows ≠ [] →
      reconcile cur prev = .error pconcatMsg) := by
  constructor
  · intro cur prev out flag r hcur hprev hok hr hex
    obtain ⟨p, hp, hkey, _⟩ := hex
    have hprevne : prev.rows ≠ [] := by
      intro h
      rw [h] at hp
      exact absurd hp (List.not_mem_nil p)
    rcases reconcile_ok_out cur prev out flag hprevne hok with
      ⟨hout, hch⟩ | ⟨hout, hs⟩
    · subst hout
      intro hmem
      have := (List.mem_filter.mp hmem).2
      rw [Bool.not_eq_true', List.any_eq_false] at this
      exact absurd hkey (by simpa using this p hp)
    · exfalso
      have := matching_schema_eq cur prev
      rw [hcur, hprev] at this
      rw [hcur] at hs
      rw [this] at hs
      exact absurd hs (by decide)
  · exact reconcile_error_of_matching_nonempty

/-- Witness for the amended C1: a matching-id record with a different
last_change and status "Active" is not emitted (reconciliation returns the
empty frame), and a matching-id record with status "Deleted" makes the run
fail with the `pl.concat` schema error. -/
theorem changed_records_never_emitted_witness :
    rowChangedActive ∉ (⟨columnOrder, []⟩ : DF).rows ∧
    reconcile ⟨columnOrder, [rowChangedDeleted]⟩ ⟨columnOrder, [rowPrevActive]⟩
      = .error pconcatMsg :=
  ⟨changed_records_never_emitted.1 ⟨columnOrder, [rowChangedActive]⟩
      ⟨columnOrder, [rowPrevDeleted]⟩ ⟨columnOrder, []⟩ true rowChangedActive
      rfl rfl rfl (by decide) (by decide),
   changed_records_never_emitted.2 ⟨columnOrder, [rowChangedDeleted]⟩
      ⟨columnOrder, [rowPrevActive]⟩ rfl rfl (by decide)⟩

/-! ### Row-level lemmas used by the idempotence claim -/

theorem valNe_self (a : Val) : valNe a a = false := by
  cases a <;> simp [valNe]

theorem keyMatch_self (a : Val) (ha : a ≠ Val.null) : keyMatch a a = true :=
  (keyMatch_true_iff a a ha).mpr rfl

theorem getVal_cons (q : String × Val) (r : Row) (c : String) :
    getVal (q :: r) c = if q.1 == c then q.2 else getVal r c := by
  by_cases h : (q.1 == c) = true
  · simp [getVal, List.find?_cons, h]
  · rw [Bool.not_eq_true] at h
    simp [getVal, List.find?_cons, h]

theorem hasCol_cons (q : String × Val) (r : Row) (c : String) :
    hasCol (q :: r) c = ((q.1 == c) || hasCol r c) := by
  simp [hasCol]

theorem hasCol_map_fst (r : Row) (c : String) :
    hasCol r c = (r.map Prod.fst).any (fun x => x == c) := by
  induction r with
  | nil => rfl
  | cons q rest ih => rw [hasCol_cons, List.map_cons, List.any_cons, ih]

theorem getVal_append_of_hasCol (a b : Row) (c : String) (h : hasCol a c = true) :
    getVal (a ++ b) c = getVal a c := by
  induction a with
  | nil => exact absurd h (by simp [hasCol])
  | cons q rest ih =>
    rw [List.cons_append, getVal_cons, getVal_cons]
    by_cases hq : (q.1 == c) = true
    · rw [if_pos hq, if_pos hq]
    · rw [Bool.not_eq_true] at hq
      rw [if_neg (by simp [hq]), if_neg (by simp [hq])]
      refine ih ?_
      rw [hasCol_cons, hq] at h
      simpa using h

theorem getVal_append_of_not_hasCol (a b : Row) (c : String) (h : hasCol a c = false) :
    getVal (a ++ b) c = getVal b c := by
  induction a with
  | nil => rfl
  | cons q rest ih =>
    rw [hasCol_cons, Bool.or_eq_false_iff] at h
    rw [List.cons_append, getVal_cons, if_neg (by simp [h.1])]
    exact ih h.2

theorem suffix_eq_lcr_iff (k : String) (hk : columnOrder.contains k = true) :
    suffixIfClash columnOrder k = "last_change_right" ↔ k = "last_change" := by
  rw [suffixIfClash, if_pos hk]
  constructor
  · intro h
    have hbase : ("last_change_right" : String) = "last_change" ++ "_right" := rfl
    rw [hbase] at h
    have h2 := congrArg String.data h
    rw [String.data_append, String.data_append] at h2
    exact congrArg String.mk (List.append_cancel_right h2)
  · intro h
    rw [h]
    rfl

theorem getVal_suffixed_lcr (p : Row)
    (hkeys : ∀ q ∈ p, columnOrder.contains q.1 = true) :
    getVal ((p.filter (fun q => !(q.1 == "material_id"))).map
        (fun q => (suffixIfClash columnOrder q.1, q.2))) "last_change_right"
      = getVal p "last_change" := by
  induction p with
  | nil => rfl
  | cons q rest ih =>
    have hq := hkeys q (List.mem_cons_self q rest)
    have hrest := fun x hx => hkeys x (List.mem_cons_of_mem q hx)
    rw [List.filter_cons]
    by_cases hid : (q.1 == "material_id") = true
    · rw [if_neg (by simp [hid])]
      rw [getVal_cons, if_neg ?hid2]
      · exact ih hrest
      case hid2 =>
        have hq1 : q.1 = "material_id" := by simpa using hid
        simp [hq1]
    · rw [if_pos (by simpa using hid)]
      rw [List.map_cons, getVal_cons, getVal_cons]
      by_cases hlc : q.1 = "last_change"
      · rw [if_pos (by simp [(suffix_eq_lcr_iff q.1 hq).mpr hlc]), if_pos (by simp [hlc])]
      · rw [if_neg ?h1, if_neg (by simp [hlc])]
        · exact ih hrest
        case h1 =>
          intro hcontra
          exact hlc ((suffix_eq_lcr_iff q.1 hq).mp (by simpa using hcontra))

/-- One candidate pair of the inner join, run through the full filter chain of
`matching_id_diff_change`: the joined row must have differing `last_change`
values, and (after projecting away `last_change_right`) a non-null
`material_id` and a current `status` of "Deleted". -/
def changedPair (s : List String) (r p : Row) : Bool :=
  diffLastChange (joinedRow s r p) &&
    (!(decide (getVal ((joinedRow s r p).filter
        (fun q => !(q.1 == "last_change_right"))) "material_id" = Val.null)) &&
      statusDeleted ((joinedRow s r p).filter
        (fun q => !(q.1 == "last_change_right"))))

theorem matching_rows_eq_nil_iff (cur prev : DF) :
    (matchingIdDiffChange cur prev).rows = [] ↔
      ∀ r ∈ cur.rows, ∀ p ∈ prev.rows,
        keyMatch (getVal r "material_id") (getVal p "material_id") = true →
        changedPair cur.schema r p = false := by
  simp only [matchingIdDiffChange, filterRows, dropNulls, selectExclude, innerJoin,
    changedPair, List.eq_nil_iff_forall_not_mem, List.mem_filter, List.mem_map,
    List.mem_flatMap, not_exists, not_and, Bool.and_eq_false_iff]
  constructor
  · intro h r hr p hp hkey
    by_cases hdiff : diffLastChange (joinedRow cur.schema r p) = true
    · by_cases hnn : (!decide (getVal ((joinedRow cur.schema r p).filter
          (fun q => !(q.1 == "last_change_right"))) "material_id" = Val.null)) = true
      · have hsd := h ((joinedRow cur.schema r p).filter
            (fun q => !(q.1 == "last_change_right")))
            ⟨⟨joinedRow cur.schema r p, ⟨⟨r, hr, p, ⟨hp, hkey⟩, rfl⟩, hdiff⟩, rfl⟩, hnn⟩
        exact Or.inr (Or.inr (by simpa using hsd))
      · exact Or.inr (Or.inl (by simpa using hnn))
    · exact Or.inl (by simpa using hdiff)
  · rintro h j ⟨⟨a, ⟨⟨r, hr, p, ⟨hp, hkey⟩, hja⟩, hdiff⟩, hstrip⟩, hnn⟩
    subst hja
    subst hstrip
    rcases h r hr p hp hkey with h1 | h2 | h3
    · rw [h1] at hdiff
      exact Bool.noConfusion hdiff
    · rw [h2] at hnn
      exact Bool.noConfusion hnn
    · simp [h3]

theorem changedPair_false_of_same_lc (r p : Row)
    (hrk : r.map Prod.fst = columnOrder) (hpk : p.map Prod.fst = columnOrder)
    (hlc : getVal r "last_change" = getVal p "last_change") :
    changedPair columnOrder r p = false := by
  have h1 : getVal (joinedRow columnOrder r p) "last_change"
      = getVal r "last_change" := by
    apply getVal_append_of_hasCol
    rw [hasCol_map_fst, hrk]
    decide
  have h2 : getVal (joinedRow columnOrder r p) "last_change_right"
      = getVal p "last_change" := by
    rw [joinedRow, getVal_append_of_not_hasCol]
    · refine getVal_suffixed_lcr p (fun q hq => ?_)
      have hq1 := List.mem_map_of_mem Prod.fst hq
      rw [hpk] at hq1
      simpa using hq1
    · rw [hasCol_map_fst, hrk]
      decide
  have hdiff : diffLastChange (joinedRow columnOrder r p) = false := by
    rw [diffLastChange, h1, h2, hlc]
    exact valNe_self _
  rw [changedPair, hdiff, Bool.false_and]

/-- Claim C3 (amended): running the reconciliation a second time against the
same export, with the previously-recorded state now containing (at least by
membership) the rows of the first run plus what the first run emitted, yields
the empty frame with the no-new-items flag set — provided every normalized
record has a non-null `material_id`, rows are schema-shaped, and records
sharing a `material_id` share a `last_change` (the spec's identity-stability
invariant; the counterexample shows the claim fails without it). -/
theorem second_run_no_new_items
    (cur prev0 prev2 em : DF) (flag1 : Bool)
    (hcur : cur.schema = columnOrder)
    (hprev0 : prev0.schema = columnOrder)
    (hwf : ∀ r ∈ cur.rows, r.map Prod.fst = columnOrder)
    (hids : ∀ r ∈ cur.rows, getVal r "material_id" ≠ Val.null)
    (hstable : ∀ r ∈ cur.rows, ∀ s ∈ cur.rows,
      getVal r "material_id" = getVal s "material_id" →
      getVal r "last_change" = getVal s "last_change")
    (h1 : reconcile cur prev0 = .ok (em, flag1))
    (hmem : ∀ p : Row, p ∈ prev2.rows ↔ (p ∈ prev0.rows ∨ p ∈ em.rows))
    (hne : prev2.rows ≠ []) :
    reconcile cur prev2 = .ok (⟨cur.schema, []⟩, true) := by
  have hboot : prev0.rows = [] → em = cur := by
    intro h0
    unfold reconcile at h1
    rw [if_pos (by simpa using h0)] at h1
    injection h1 with h2
    injection h2 with ha hb
    exact ha.symm
  have hstep : prev0.rows ≠ [] →
      em = notInFaculty cur prev0 ∧ (matchingIdDiffChange cur prev0).rows = [] := by
    intro h0
    rcases reconcile_ok_out cur prev0 em flag1 h0 h1 with h | ⟨_, hs⟩
    · exact h
    · exfalso
      have hms := matching_schema_eq cur prev0
      rw [hcur, hprev0] at hms
      rw [hcur, hms] at hs
      exact absurd hs (by decide)
  have hemsub : ∀ x ∈ em.rows, x ∈ cur.rows := by
    intro x hx
    by_cases h0 : prev0.rows = []
    · rw [hboot h0] at hx
      exact hx
    · obtain ⟨hem, _⟩ := hstep h0
      rw [hem] at hx
      exact (List.mem_filter.mp hx).1
  have hch1 : (matchingIdDiffChange cur prev0).rows = [] := by
    by_cases h0 : prev0.rows = []
    · exact matching_rows_nil_of_prev_nil cur prev0 h0
    · exact (hstep h0).2
  have hch2 : (matchingIdDiffChange cur prev2).rows = [] := by
    rw [matching_rows_eq_nil_iff]
    intro r hr p hp hkey
    rcases (hmem p).mp hp with hp0 | hpe
    · exact (matching_rows_eq_nil_iff cur prev0).mp hch1 r hr p hp0 hkey
    · have hpc := hemsub p hpe
      have hideq : getVal p "material_id" = getVal r "material_id" :=
        (keyMatch_true_iff _ _ (hids r hr)).mp hkey
      have hlc := hstable r hr p hpc hideq.symm
      rw [hcur]
      exact changedPair_false_of_same_lc r p (hwf r hr) (hwf p hpc) hlc
  have hanti2 : (notInFaculty cur prev2).rows = [] := by
    rw [List.eq_nil_iff_forall_not_mem]
    intro r hmemr
    have hr : r ∈ cur.rows := (List.mem_filter.mp hmemr).1
    have hcond := (List.mem_filter.mp hmemr).2
    rw [Bool.not_eq_true', List.any_eq_false] at hcond
    have hexists : ∃ p ∈ prev2.rows,
        keyMatch (getVal r "material_id") (getVal p "material_id") = true := by
      by_cases h0 : prev0.rows = []
      · refine ⟨r, (hmem r).mpr (Or.inr ?_), keyMatch_self _ (hids r hr)⟩
        rw [hboot h0]
        exact hr
      · obtain ⟨hem, _⟩ := hstep h0
        by_cases hra : r ∈ (notInFaculty cur prev0).rows
        · exact ⟨r, (hmem r).mpr (Or.inr (by rw [hem]; exact hra)),
            keyMatch_self _ (hids r hr)⟩
        · have hpred : ¬ ((!(prev0.rows.any (fun rr =>
              keyMatch (getVal r "material_id") (getVal rr "material_id")))) = true) := by
            intro hcontra
            exact hra (List.mem_filter.mpr ⟨hr, hcontra⟩)
          cases hb : prev0.rows.any (fun rr =>
              keyMatch (getVal r "material_id") (getVal rr "material_id")) with
          | false => exact absurd (by rw [hb]; rfl) hpred
          | true =>
            rw [List.any_eq_true] at hb
            obtain ⟨p, hp0, hk⟩ := hb
            exact ⟨p, (hmem p).mpr (Or.inl hp0), hk⟩
    obtain ⟨p, hp2, hk⟩ := hexists
    exact absurd hk (by simpa using hcond p hp2)
  have hanti2' : notInFaculty cur prev2 = ⟨cur.schema, []⟩ := by
    have heta : notInFaculty cur prev2
        = ⟨cur.schema, (notInFaculty cur prev2).rows⟩ := rfl
    rw [heta, hanti2]
  unfold reconcile
  rw [if_neg (by simpa using hne)]
  simp only
  rw [if_pos (by simpa using hch2)]
  rw [hanti2', hch2]
  rfl

/-- Current-export rows sharing `material_id` "1" with different `last_change`
values; the second carries status "Deleted". -/
def dupIdRow1 : Row :=
  mkRow (.str "1") (.str "2024-01-01") (.str "Active") (.str "CS") (.str "EEMCS")

/-- See `dupIdRow1`. -/
def dupIdRow2 : Row :=
  mkRow (.str "1") (.str "2024-02-01") (.str "Deleted") (.str "CS") (.str "EEMCS")

/-- Claim C3 fails on the code as stated: a bootstrap first run emits both
records (no previous data), the read-back state is exactly the emitted rows
(row de-duplication collapses nothing), yet the second run against the same
export raises the `pl.concat` schema error instead of returning the empty
no-new-items result: the two emitted rows share a `material_id` with
different `last_change` values and one of them has status "Deleted". -/
theorem second_run_counterexample :
    reconcile ⟨columnOrder, [dupIdRow1, dupIdRow2]⟩ ⟨columnOrder, []⟩
        = .ok (⟨columnOrder, [dupIdRow1, dupIdRow2]⟩, false) ∧
    ([dupIdRow1, dupIdRow2] : List Row).dedup = [dupIdRow1, dupIdRow2] ∧
    reconcile ⟨columnOrder, [dupIdRow1, dupIdRow2]⟩
        ⟨columnOrder, [dupIdRow1, dupIdRow2]⟩ = .error pconcatMsg :=
  ⟨rfl, by decide, rfl⟩

/-- A single normalized record used to instantiate the amended C3. -/
def singleRow : Row :=
  mkRow (.str "9") (.str "2024-03-01") (.str "Active") (.str "CS") (.str "EEMCS")

/-- Witness for the amended C3 at a concrete input: second run over one
record already present in the read-back state yields the empty frame and the
no-new-items flag. -/
theorem second_run_no_new_items_witness :
    reconcile ⟨columnOrder, [singleRow]⟩ ⟨columnOrder, [singleRow]⟩
      = .ok (⟨columnOrder, []⟩, true) :=
  second_run_no_new_items ⟨columnOrder, [singleRow]⟩ ⟨columnOrder, []⟩
    ⟨columnOrder, [singleRow]⟩ ⟨columnOrder, [singleRow]⟩ false
    rfl rfl (by decide) (by decide) (by decide) rfl
    (fun p => by simp) (by decide)

/-! ### Decimal representation: `Nat.repr` is injective (needed to show the
collision-avoidance loop always finds a free file name) -/

theorem toDigitsCore_eq_digits :
    ∀ n : Nat, ∀ f : Nat, ∀ acc : List Char, n < f → 0 < n →
      Nat.toDigitsCore 10 f n acc
        = ((Nat.digits 10 n).map Nat.digitChar).reverse ++ acc := by
  intro n
  induction n using Nat.strong_induction_on with
  | _ n ih =>
    intro f acc hf hn
    cases f with
    | zero => omega
    | succ f =>
      rw [Nat.toDigitsCore]
      by_cases hdiv : n / 10 = 0
      · have hlt : n < 10 := by omega
        rw [if_pos hdiv, Nat.digits_def' (by norm_num : (1:Nat) < 10) hn, hdiv]
        simp [Nat.mod_eq_of_lt hlt]
      · rw [if_neg hdiv]
        have hlt : n / 10 < n := Nat.div_lt_self hn (by norm_num)
        have hrec := ih (n / 10) hlt f (Nat.digitChar (n % 10) :: acc)
          (by omega) (by omega)
        rw [hrec, Nat.digits_def' (by norm_num : (1:Nat) < 10) hn]
        simp

theorem repr_eq_digits (n : Nat) (hn : 0 < n) :
    Nat.repr n = (((Nat.digits 10 n).map Nat.digitChar).reverse).asString := by
  show (Nat.toDigitsCore 10 (n+1) n []).asString = _
  rw [toDigitsCore_eq_digits n (n+1) [] (by omega) hn, List.append_nil]

theorem map_digitChar_inj :
    ∀ l1 l2 : List Nat, (∀ x ∈ l1, x < 10) → (∀ x ∈ l2, x < 10) →
      l1.map Nat.digitChar = l2.map Nat.digitChar → l1 = l2 := by
  have hinj : ∀ a, a < 10 → ∀ b, b < 10 → Nat.digitChar a = Nat.digitChar b → a = b := by
    decide
  intro l1
  induction l1 with
  | nil =>
    intro l2 _ _ h
    cases l2 with
    | nil => rfl
    | cons b bs => exact absurd h (by simp)
  | cons a as iha =>
    intro l2 h1 h2 h
    cases l2 with
    | nil => exact absurd h (by simp)
    | cons b bs =>
      simp only [List.map_cons, List.cons.injEq] at h
      have ha := h1 a (List.mem_cons_self a as)
      have hb := h2 b (List.mem_cons_self b bs)
      rw [hinj a ha b hb h.1,
        iha bs (fun x hx => h1 x (List.mem_cons_of_mem a hx))
          (fun x hx => h2 x (List.mem_cons_of_mem b hx)) h.2]

theorem natRepr_inj : Function.Injective Nat.repr := by
  have hasString : ∀ a b : List Char, a.asString = b.asString → a = b := by
    intro a b h
    have h2 := congrArg String.data h
    simpa [List.asString] using h2
  have hpos : ∀ m : Nat, 0 < m → ∀ n : Nat, 0 < n → Nat.repr m = Nat.repr n → m = n := by
    intro m hm n hn h
    rw [repr_eq_digits m hm, repr_eq_digits n hn] at h
    have h2 := List.reverse_injective (hasString _ _ h)
    have h3 := map_digitChar_inj (Nat.digits 10 m) (Nat.digits 10 n)
      (fun x hx => Nat.digits_lt_base (by norm_num) hx)
      (fun x hx => Nat.digits_lt_base (by norm_num) hx) h2
    have h4 := congrArg (Nat.ofDigits 10) h3
    rwa [Nat.ofDigits_digits, Nat.ofDigits_digits] at h4
  have hzero : ∀ n : Nat, 0 < n → Nat.repr n ≠ Nat.repr 0 := by
    intro n hn h
    have h0 : Nat.repr 0 = List.asString ['0'] := rfl
    rw [repr_eq_digits n hn, h0] at h
    have h2 := hasString _ _ h
    have h3 : (Nat.digits 10 n).map Nat.digitChar = ['0'] := by
      have h4 := congrArg List.reverse h2
      simpa using h4
    cases hds : Nat.digits 10 n with
    | nil =>
      rw [hds] at h3
      exact absurd h3 (by simp)
    | cons d ds =>
      rw [hds] at h3
      cases ds with
      | cons e es => exact absurd h3 (by simp)
      | nil =>
        simp only [List.map_cons, List.map_nil, List.cons.injEq, and_true] at h3
        have hdlt : d < 10 := Nat.digits_lt_base (by norm_num)
          (by rw [hds]; exact List.mem_cons_self d [])
        have hd0 : d = 0 := by
          have hinj0 : ∀ a, a < 10 → Nat.digitChar a = '0' → a = 0 := by decide
          exact hinj0 d hdlt h3
        have h5 := congrArg (Nat.ofDigits 10) hds
        rw [Nat.ofDigits_digits, hd0] at h5
        have h6 : Nat.ofDigits 10 [0] = 0 := by decide
        omega
  intro m n h
  rcases Nat.eq_zero_or_pos m with hm | hm
  · rcases Nat.eq_zero_or_pos n with hn | hn
    · rw [hm, hn]
    · exact absurd (h.symm.trans (hm ▸ rfl)) (hzero n hn)
  · rcases Nat.eq_zero_or_pos n with hn | hn
    · exact absurd (h.trans (hn ▸ rfl)) (hzero m hm)
    · exact hpos m hm n hn h

/-- One candidate output file name (easy_access_cli.py lines 578-581 and
665-668): `<base>_<date>.xlsx` for attempt 0, `<base>_<date>_<i>.xlsx` for
attempt `i ≥ 1` (`f"{faculty}_{self.latest_file_date}_{i}.xlsx"`). -/
def collisionName (base date : String) (i : Nat) : String :=
  if i = 0 then base ++ "_" ++ date ++ ".xlsx"
  else base ++ "_" ++ date ++ "_" ++ Nat.repr i ++ ".xlsx"

/-- The `while os.path.exists(...): filename = ...; i += 1` loop
(easy_access_cli.py lines 579-582, 666-669), with explicit fuel bounding the
number of looks at the directory; `existing.length + 1` attempts always
reach a free name (`collision_safe_naming`), matching the unbounded Python
loop. -/
def findFreeAux (existing : List String) (base date : String) : Nat → Nat → String
  | i, 0 => collisionName base date i
  | i, fuel+1 =>
    if existing.contains (collisionName base date i) then
      findFreeAux existing base date (i+1) fuel
    else collisionName base date i

/-- The collision-avoiding file name chosen against the set `existing` of
file names already present in the target directory. -/
def findFree (existing : List String) (base date : String) : String :=
  findFreeAux existing base date 0 (existing.length + 1)

theorem repr_length_pos (n : Nat) : 0 < (Nat.repr n).length := by
  rcases Nat.eq_zero_or_pos n with h | h
  · rw [h]
    decide
  · rw [repr_eq_digits n h]
    show 0 < (((Nat.digits 10 n).map Nat.digitChar).reverse).length
    simp only [List.length_reverse, List.length_map]
    exact List.length_pos.mpr (Nat.digits_ne_nil_iff_ne_zero.mpr (by omega))

theorem collisionName_inj (base date : String) :
    Function.Injective (collisionName base date) := by
  intro i j h
  rcases Nat.eq_zero_or_pos i with hi | hi <;> rcases Nat.eq_zero_or_pos j with hj | hj
  · omega
  · exfalso
    rw [collisionName, collisionName, if_pos hi, if_neg (by omega)] at h
    have hl := congrArg String.length h
    simp only [String.length_append] at hl
    have h1 : ("_" : String).length = 1 := rfl
    have h2 : (".xlsx" : String).length = 5 := rfl
    have h3 := repr_length_pos j
    omega
  · exfalso
    rw [collisionName, collisionName, if_neg (by omega), if_pos hj] at h
    have hl := congrArg String.length h
    simp only [String.length_append] at hl
    have h1 : ("_" : String).length = 1 := rfl
    have h2 : (".xlsx" : String).length = 5 := rfl
    have h3 := repr_length_pos i
    omega
  · rw [collisionName, collisionName, if_neg (by omega), if_neg (by omega)] at h
    have h2 := congrArg String.data h
    simp only [String.data_append, List.append_assoc] at h2
    have h3 := List.append_cancel_left h2
    have h4 := List.append_cancel_left h3
    have h5 := List.append_cancel_left h4
    have h6 := List.append_cancel_left h5
    have h7 := List.append_cancel_right h6
    exact natRepr_inj (congrArg String.mk h7)

theorem exists_free (existing : List String) (base date : String) :
    ∃ i, i ≤ existing.length ∧ collisionName base date i ∉ existing := by
  by_contra hcon
  push_neg at hcon
  have hsub : (Finset.range (existing.length + 1)).image (collisionName base date)
      ⊆ existing.toFinset := by
    intro x hx
    rw [Finset.mem_image] at hx
    obtain ⟨i, hi, rfl⟩ := hx
    rw [List.mem_toFinset]
    exact hcon i (Nat.lt_succ_iff.mp (Finset.mem_range.mp hi))
  have hcard := Finset.card_le_card hsub
  rw [Finset.card_image_of_injective _ (collisionName_inj base date),
    Finset.card_range] at hcard
  have hfin := existing.toFinset_card_le
  omega

theorem findFreeAux_spec (existing : List String) (base date : String) :
    ∀ fuel i : Nat,
      (∃ j, i ≤ j ∧ j ≤ i + fuel ∧ collisionName base date j ∉ existing) →
      findFreeAux existing base date i fuel ∉ existing ∧
      ∃ k, i ≤ k ∧
        findFreeAux existing base date i fuel = collisionName base date k ∧
        ∀ j, i ≤ j → j < k → collisionName base date j ∈ existing := by
  intro fuel
  induction fuel with
  | zero =>
    intro i hex
    obtain ⟨j, hij, hji, hfree⟩ := hex
    have hj : j = i := by omega
    refine ⟨?_, i, le_refl i, rfl, ?_⟩
    · rw [hj] at hfree
      exact hfree
    · intro j2 h1 h2
      exact absurd (h1.trans_lt h2) (lt_irrefl i)
  | succ fuel ih =>
    intro i hex
    by_cases hc : existing.contains (collisionName base date i) = true
    · have step : findFreeAux existing base date i (fuel+1)
          = findFreeAux existing base date (i+1) fuel := by
        simp only [findFreeAux]
        rw [if_pos hc]
      have hmem : collisionName base date i ∈ existing := by simpa using hc
      obtain ⟨j, hij, hji, hfree⟩ := hex
      have hjne : j ≠ i := fun hji2 => hfree (hji2 ▸ hmem)
      obtain ⟨hfree2, k, hk, heq, hall⟩ :=
        ih (i+1) ⟨j, by omega, by omega, hfree⟩
      rw [step]
      refine ⟨hfree2, k, by omega, heq, ?_⟩
      intro j2 h1 h2
      by_cases hj2i : j2 = i
      · rwa [hj2i]
      · exact hall j2 (by omega) h2
    · have step : findFreeAux existing base date i (fuel+1)
          = collisionName base date i := by
        simp only [findFreeAux]
        rw [if_neg hc]
      rw [step]
      refine ⟨by simpa using hc, i, le_refl i, rfl, ?_⟩
      intro j2 h1 h2
      exact absurd (h1.trans_lt h2) (lt_irrefl i)

/-- Claim C6: the writer never overwrites an existing file (the chosen name
is not among the existing ones), the chosen name is `<base>_<date>.xlsx` or
`<base>_<date>_<k>.xlsx` for the first index `k` whose name is free (numeric
suffixes are tried in order `_1, _2, ...` after the base name), and writing a
second output with the same base into the directory (now also holding the
first file) picks a different name. -/
theorem collision_safe_naming (existing : List String) (base date : String) :
    findFree existing base date ∉ existing ∧
    (∃ k, findFree existing base date = collisionName base date k ∧
      ∀ j, j < k → collisionName base date j ∈ existing) ∧
    findFree (existing ++ [findFree existing base date]) base date
      ≠ findFree existing base date := by
  have hex1 : ∃ j, 0 ≤ j ∧ j ≤ 0 + (existing.length + 1) ∧
      collisionName base date j ∉ existing := by
    obtain ⟨i, hle, hfree⟩ := exists_free existing base date
    exact ⟨i, Nat.zero_le i, by omega, hfree⟩
  obtain ⟨hfree, k, _, heq, hall⟩ :=
    findFreeAux_spec existing base date (existing.length + 1) 0 hex1
  refine ⟨hfree, ⟨k, heq, fun j hj => hall j (Nat.zero_le j) hj⟩, ?_⟩
  have hex2 : ∃ j, 0 ≤ j ∧
      j ≤ 0 + ((existing ++ [findFree existing base date]).length + 1) ∧
      collisionName base date j ∉ existing ++ [findFree existing base date] := by
    obtain ⟨i, hle, hfree2⟩ :=
      exists_free (existing ++ [findFree existing base date]) base date
    exact ⟨i, Nat.zero_le i, by omega, hfree2⟩
  obtain ⟨hfree2, _⟩ := findFreeAux_spec (existing ++ [findFree existing base date])
    base date ((existing ++ [findFree existing base date]).length + 1) 0 hex2
  intro hcontra
  apply hfree2
  rw [show findFreeAux (existing ++ [findFree existing base date]) base date 0
      ((existing ++ [findFree existing base date]).length + 1)
      = findFree (existing ++ [findFree existing base date]) base date from rfl,
    hcontra]
  exact List.mem_append_right existing (by simp)

/-! ### Sheet writer: `create_faculty_sheets` and `create_all_items_sheet` -/

/-- Lexicographic comparison on code points, structurally (Python's `<` on
strings; Lean's built-in `String` order does not reduce in the kernel). -/
def lexLt : List Char → List Char → Bool
  | [], [] => false
  | [], _ :: _ => true
  | _ :: _, [] => false
  | a :: as, b :: bs =>
    if a.toNat < b.toNat then true
    else if b.toNat < a.toNat then false
    else lexLt as bs

/-- Insert into a sorted list (ascending, Python `list.sort()` semantics). -/
def insertSorted (x : String) : List String → List String
  | [] => [x]
  | y :: ys => if lexLt y.data x.data then y :: insertSorted x ys else x :: y :: ys

/-- `self.faculties.sort()` (easy_access_cli.py line 573): ascending sort. -/
def sortStrings (l : List String) : List String :=
  l.foldr insertSorted []

theorem mem_insertSorted (x a : String) (l : List String) :
    a ∈ insertSorted x l ↔ a = x ∨ a ∈ l := by
  induction l with
  | nil => simp [insertSorted]
  | cons y ys ih =>
    rw [insertSorted]
    by_cases h : lexLt y.data x.data = true
    · rw [if_pos h]
      simp only [List.mem_cons, ih]
      tauto
    · rw [if_neg h]
      simp only [List.mem_cons]

theorem mem_sortStrings (a : String) (l : List String) :
    a ∈ sortStrings l ↔ a ∈ l := by
  induction l with
  | nil => simp [sortStrings]
  | cons y ys ih =>
    show a ∈ insertSorted y (sortStrings ys) ↔ _
    rw [mem_insertSorted, ih]
    simp

/-- One output artifact of the per-category writer: the directory component
below the faculties root, the chosen file name, and the rows written. -/
structure SheetOut where
  subdir : String
  filename : String
  written : List Row
deriving DecidableEq, Repr

/-- `pathlib`'s `root / sub`: an empty path component is dropped, so an empty
faculty name resolves to the faculties root itself. -/
def joinDir (root sub : String) : String :=
  if sub = "" then root else root ++ "/" ++ sub

/-- One iteration of the loop in `create_faculty_sheets`
(easy_access_cli.py lines 574-591): the target directory is derived from the
raw faculty value BEFORE the empty string is renamed to "no_faculty_found";
the file name and the `pl.col("faculty") == faculty` filter use the renamed
value.  `dirFiles` gives the names already present in a directory component. -/
def writeFacultySheet (dirFiles : String → List String) (data : DF)
    (date : String) (faculty : String) : SheetOut :=
  let sub := faculty
  let name := if faculty = "" then "no_faculty_found" else faculty
  ⟨sub, findFree (dirFiles sub) name date,
   data.rows.filter (fun r => decide (getVal r "faculty" = Val.str name))⟩

/-- `create_faculty_sheets` (easy_access_cli.py lines 567-591): sort the
observed faculties, then write one sheet per faculty. -/
def createFacultySheets (dirFiles : String → List String) (data : DF)
    (date : String) (faculties : List String) : List SheetOut :=
  (sortStrings faculties).map (writeFacultySheet dirFiles data date)

/-- `self.copyright_data.select(pl.col("faculty").unique()).to_series().to_list()`
(easy_access_cli.py line 565).  A null or non-string faculty value would make
the later Python `sort()`/`Path` operations fail, modeled as an error. -/
def facultiesOf (df : DF) : Except String (List String) :=
  ((df.rows.map (fun r => getVal r "faculty")).dedup).mapM (fun v =>
    match v with
    | Val.str s => Except.ok s
    | _ => Except.error "TypeError: faculty values must be strings")

/-- `create_all_items_sheet` (easy_access_cli.py lines 659-672): skipped
entirely when the no-new-items flag is set; otherwise writes the whole
frame under a collision-avoiding `all_items_<date>[_<n>].xlsx` name. -/
def createAllItemsSheet (allFiles : List String) (date : String)
    (flag : Bool) (data : DF) : Option (String × List Row) :=
  if flag then none
  else some (findFree allFiles "all_items" date, data.rows)

/-- The reconcile-then-write pipeline of a `--do read` run
(easy_access_cli.py lines 503-591 and 659-672): reconciliation, extraction
of the observed faculties, per-faculty sheets, and the all-items sheet. -/
def runPipeline (cur prev : DF) (dirFiles : String → List String)
    (allFiles : List String) (date : String) :
    Except String (List SheetOut × Option (String × List Row) × Bool) := do
  let (out, flag) ← reconcile cur prev
  let facs ← facultiesOf out
  let sheets := createFacultySheets dirFiles out date facs
  .ok (sheets, createAllItemsSheet allFiles date flag out, flag)

/-- Claim C4: when previous per-category data exists and both the newly-seen
and the changed subsets are empty, the run sets the no-new-items flag, the
per-faculty writer produces no sheet at all (the emitted frame has no rows,
hence no observed faculties), and the all-items sheet is skipped. -/
theorem empty_delta_writes_nothing (cur prev : DF)
    (dirFiles : String → List String) (allFiles : List String) (date : String)
    (hprev : prev.rows ≠ [])
    (hanti : (notInFaculty cur prev).rows = [])
    (hchanged : (matchingIdDiffChange cur prev).rows = []) :
    runPipeline cur prev dirFiles allFiles date = .ok ([], none, true) := by
  have hrec : reconcile cur prev = .ok (⟨cur.schema, []⟩, true) := by
    unfold reconcile
    rw [if_neg (by simpa using hprev)]
    simp only
    rw [if_pos (by simpa using hchanged)]
    have heta : notInFaculty cur prev
        = ⟨cur.schema, (notInFaculty cur prev).rows⟩ := rfl
    rw [heta, hanti, hchanged]
    rfl
  rw [runPipeline, hrec]
  rfl

/-- Witness for C4: one record already recorded with an identical row:
nothing is newly seen, nothing changed, nothing written. -/
theorem empty_delta_writes_nothing_witness :
    runPipeline ⟨columnOrder, [singleRow]⟩ ⟨columnOrder, [singleRow]⟩
      (fun _ => []) [] "2024-03-01" = .ok ([], none, true) :=
  empty_delta_writes_nothing ⟨columnOrder, [singleRow]⟩
    ⟨columnOrder, [singleRow]⟩ (fun _ => []) [] "2024-03-01"
    (by decide) (by decide) (by decide)

theorem findFree_of_base_free (existing : List String) (base date : String)
    (h : collisionName base date 0 ∉ existing) :
    findFree existing base date = collisionName base date 0 := by
  show findFreeAux existing base date 0 (existing.length + 1) = _
  simp only [findFreeAux]
  rw [if_neg (by simpa using h)]

/-- A record whose department mapped to the empty faculty label. -/
def emptyFacRow : Row :=
  mkRow (.str "5") (.str "2024-01-01") (.str "Active") (.str "X") (.str "")

/-- Claim C10: when the empty-string faculty is among the observed
categories, the per-category writer emits a sheet whose directory component
is the raw empty value — which `pathlib` resolves to the faculties root
itself, not a subdirectory — while the file name uses the substituted
reserved label `no_faculty_found` (the rename on line 577 happens after the
directory was fixed on line 575); the sheet carries zero data rows because
the filter on line 584 compares against the substituted label, and records
with an empty faculty value appear in no output sheet of the run. -/
theorem empty_faculty_sheet (dirFiles : String → List String) (data : DF)
    (date : String) (faculties : List String)
    (hmem : "" ∈ faculties)
    (hnf : ∀ r ∈ data.rows, getVal r "faculty" ≠ Val.str "no_faculty_found")
    (hfree : ("no_faculty_found_" ++ date ++ ".xlsx") ∉ dirFiles "") :
    (∃ out ∈ createFacultySheets dirFiles data date faculties,
      out.subdir = "" ∧
      (∀ root : String, joinDir root out.subdir = root) ∧
      out.filename = "no_faculty_found_" ++ date ++ ".xlsx" ∧
      out.written = []) ∧
    ∀ out ∈ createFacultySheets dirFiles data date faculties,
      ∀ r ∈ out.written, getVal r "faculty" ≠ Val.str "" := by
  constructor
  · refine ⟨writeFacultySheet dirFiles data date "", ?_, rfl, ?_, ?_, ?_⟩
    · exact List.mem_map_of_mem _ ((mem_sortStrings "" faculties).mpr hmem)
    · intro root
      rfl
    · show findFree (dirFiles "") "no_faculty_found" date = _
      rw [findFree_of_base_free (dirFiles "") "no_faculty_found" date ?hbase,
        collisionName, if_pos rfl]
      · rfl
      case hbase =>
        have hb : collisionName "no_faculty_found" date 0
            = "no_faculty_found_" ++ date ++ ".xlsx" := by
          rw [collisionName, if_pos rfl]
          rfl
        rw [hb]
        exact hfree
    · show data.rows.filter _ = []
      rw [List.filter_eq_nil_iff]
      intro r hr
      simp only [decide_eq_true_eq]
      exact hnf r hr
  · intro out hout r hr
    rw [createFacultySheets, List.mem_map] at hout
    obtain ⟨f, hf, rfl⟩ := hout
    have hfilt := List.mem_filter.mp hr
    rw [decide_eq_true_eq] at hfilt
    rw [hfilt.2]
    intro hcontra
    injection hcontra with hs
    by_cases hfe : f = ""
    · rw [if_pos hfe] at hs
      exact absurd hs (by decide)
    · rw [if_neg hfe] at hs
      exact hfe hs

/-- Witness for C10: a run whose reconciled data has one record with empty
faculty writes the zero-row `no_faculty_found_<date>.xlsx` into the root. -/
theorem empty_faculty_sheet_witness :
    (∃ out ∈ createFacultySheets (fun _ => [])
        ⟨columnOrder, [emptyFacRow]⟩ "2024-05-01" [""],
      out.subdir = "" ∧
      (∀ root : String, joinDir root out.subdir = root) ∧
      out.filename = "no_faculty_found_" ++ "2024-05-01" ++ ".xlsx" ∧
      out.written = []) ∧
    ∀ out ∈ createFacultySheets (fun _ => [])
        ⟨columnOrder, [emptyFacRow]⟩ "2024-05-01" [""],
      ∀ r ∈ out.written, getVal r "faculty" ≠ Val.str "" :=
  empty_faculty_sheet (fun _ => []) ⟨columnOrder, [emptyFacRow]⟩ "2024-05-01"
    [""] (by decide) (by decide) (by decide)

/-! ### Ingestion normalizer: `process_copyright_export` lines 511-524 and
`read_other_sheet` lines 454-482 -/

/-- Python `str.replace` for a single-character pattern: every occurrence of
`c` is replaced by the string `r`. -/
def pyReplaceChar (c : Char) (r : List Char) (s : List Char) : List Char :=
  s.flatMap (fun ch => if ch = c then r else [ch])

/-- ASCII lowering, the fragment of Python `str.lower()` exercised by the
CopyRight export headers. -/
def asciiLower (ch : Char) : Char :=
  if 'A' ≤ ch ∧ ch ≤ 'Z' then Char.ofNat (ch.toNat + 32) else ch

/-- The header rewrite of easy_access_cli.py lines 512-516:
`col.replace(" ", "_").replace("#", "count_").replace("*", "x").lower()`. -/
def renameHeader (c : String) : String :=
  String.mk ((pyReplaceChar '*' ['x']
    (pyReplaceChar '#' "count_".data
      (pyReplaceChar ' ' ['_'] c.data))).map asciiLower)

/-- The column expressions handed to `with_columns` on lines 517-524, in
order: `retrieved_from_copyright_on`, `workflow_status`, `last_change`
(an in-place reformat) and `faculty`.  polars replaces a column in place
when the name exists and appends new columns in argument order. -/
def withColumnsArgs : List String :=
  ["retrieved_from_copyright_on", "workflow_status", "last_change", "faculty"]

/-- Column schema after the rename and `with_columns` of
`process_copyright_export` (no reordering happens on this path). -/
def processedSchema (raw : List String) : List String :=
  raw.map renameHeader ++
    withColumnsArgs.filter (fun c => !((raw.map renameHeader).contains c))

/-- `df.select(target)` at schema level (easy_access_cli.py line 482):
polars raises `ColumnNotFoundError` when a selected column is missing,
otherwise the result carries exactly the selected columns in order. -/
def selectSchema (s target : List String) : Except String (List String) :=
  if target.all (fun c => s.contains c) then .ok target
  else .error "ColumnNotFoundError"

/-- Claim C5 fails on the code: the fresh-export path never reorders or
restricts columns to `column_order` (only `read_other_sheet` does, via
`select`), so a raw export carrying one extra column yields an output frame
with 36 columns. -/
theorem schema_conformance_counterexample :
    processedSchema (columnOrder.take 32 ++ ["extra_column"]) ≠ columnOrder := by
  decide

/-- Claim C5 (amended): the alternate-sheet path always yields exactly the
35 `column_order` fields in order (its `select` enforces this); the
fresh-export path yields exactly `column_order` whenever the raw export's
normalized headers are the 32 schema fields preceding the three computed
ones, in schema order — a sufficient condition on the input, the canonical
CopyRight export shape; `process_copyright_export` itself never reorders or
restricts columns. -/
theorem schema_conformance :
    (∀ raw : List String, raw.map renameHeader = columnOrder.take 32 →
      processedSchema raw = columnOrder) ∧
    (∀ s out : List String, selectSchema s columnOrder = .ok out →
      out = columnOrder) := by
  constructor
  · intro raw h
    rw [processedSchema, h]
    decide
  · intro s out h
    rw [selectSchema] at h
    by_cases hc : columnOrder.all (fun c => s.contains c) = true
    · rw [if_pos hc] at h
      injection h with h2
      exact h2.symm
    · rw [if_neg hc] at h
      exact Except.noConfusion h

/-- Witness for the amended C5: the canonical raw export (headers already in
normalized form) produces exactly `column_order`, and a `select` that
succeeds returns exactly `column_order`. -/
theorem schema_conformance_witness :
    processedSchema (columnOrder.take 32) = columnOrder ∧
    (columnOrder : List String) = columnOrder :=
  ⟨schema_conformance.1 (columnOrder.take 32) (by decide),
   schema_conformance.2 columnOrder columnOrder rfl⟩

/-- `%Y-%m-%d` two-digit zero padding. -/
def pad2 (n : Nat) : String :=
  if n < 10 then "0" ++ Nat.repr n else Nat.repr n

/-- `%Y-%m-%d` four-digit zero padding of the year. -/
def pad4 (n : Nat) : String :=
  if n < 10 then "000" ++ Nat.repr n
  else if n < 100 then "00" ++ Nat.repr n
  else if n < 1000 then "0" ++ Nat.repr n
  else Nat.repr n

/-- `strftime("%Y-%m-%d")` on a date value. -/
def fmtYMD (y m d : Nat) : String :=
  pad4 y ++ "-" ++ pad2 m ++ "-" ++ pad2 d

/-- `pl.col("last_change").dt.strftime("%Y-%m-%d")` (line 520) on one cell:
defined on date values, null is kept (polars propagates null); a `.dt`
accessor on a non-temporal column raises in polars and is modeled as null,
the theorems assume date-typed input. -/
def strftimeVal : Val → Val
  | .date y m d => .str (fmtYMD y m d)
  | _ => .null

/-- The department-to-faculty lookup: the first mapping entry for the
department, or the reserved "Unmapped" default. -/
def facultyOf (mapping : List (String × String)) (dept : String) : String :=
  ((mapping.find? (fun q => q.1 == dept)).map Prod.snd).getD "Unmapped"

/-- `pl.col("department").replace_strict(self.DEPARTMENT_MAPPING,
default="Unmapped")` (lines 521-523) on one cell: non-matched values (nulls
included, no mapping key is null) fall back to the default. -/
def replaceStrict (mapping : List (String × String)) : Val → Val
  | .str s => .str (facultyOf mapping s)
  | _ => .str "Unmapped"

/-- Rename the keys of one row per the header rewrite (lines 512-516). -/
def renameRow (r : Row) : Row :=
  r.map (fun p => (renameHeader p.1, p.2))

/-- `with_columns` on one row for one column expression: replace the value
in place when the column exists, append the column otherwise. -/
def setVal (r : Row) (k : String) (v : Val) : Row :=
  if r.any (fun p => p.1 == k) then
    r.map (fun p => if p.1 == k then (k, v) else p)
  else r ++ [(k, v)]

/-- The per-row normalization of `process_copyright_export` lines 511-524:
rename headers, stamp `retrieved_from_copyright_on` with the export date,
initialize `workflow_status` to "ToDo", reformat `last_change`, and map
`department` to `faculty`.  All column expressions read the input frame, as
`with_columns` does. -/
def normalizeRow (mapping : List (String × String)) (dateStr : String)
    (raw : Row) : Row :=
  let r := renameRow raw
  setVal
    (setVal
      (setVal (setVal r "retrieved_from_copyright_on" (.str dateStr))
        "workflow_status" (.str "ToDo"))
      "last_change" (strftimeVal (getVal r "last_change")))
    "faculty" (replaceStrict mapping (getVal r "department"))

/-- The full normalization of a raw export frame. -/
def normalizeDF (mapping : List (String × String)) (dateStr : String)
    (raw : DF) : DF :=
  ⟨processedSchema raw.schema, raw.rows.map (normalizeRow mapping dateStr)⟩

theorem getVal_setVal_same (r : Row) (k : String) (v : Val) :
    getVal (setVal r k v) k = v := by
  rw [setVal]
  by_cases h : r.any (fun p => p.1 == k) = true
  · rw [if_pos h]
    induction r with
    | nil => exact absurd h (by simp)
    | cons q rest ih =>
      rw [List.map_cons]
      by_cases hq : (q.1 == k) = true
      · rw [if_pos hq, getVal_cons, if_pos (by simp)]
      · rw [if_neg hq, getVal_cons, if_neg hq]
        refine ih ?_
        rw [List.any_cons, Bool.or_eq_true] at h
        rcases h with h | h
        · exact absurd h hq
        · exact h
  · rw [if_neg h]
    induction r with
    | nil => rw [List.nil_append, getVal_cons, if_pos (by simp)]
    | cons q rest ih =>
      rw [List.cons_append, getVal_cons]
      by_cases hq : (q.1 == k) = true
      · exact absurd (by rw [List.any_cons, hq, Bool.true_or]) h
      · rw [if_neg hq]
        refine ih ?_
        intro hcontra
        exact h (by rw [List.any_cons, hcontra, Bool.or_true])

theorem getVal_mapSet_other (r : Row) (k k2 : String) (v : Val)
    (hne : k2 ≠ k) :
    getVal (r.map (fun p => if (p.1 == k) = true then (k, v) else p)) k2
      = getVal r k2 := by
  induction r with
  | nil => rfl
  | cons q rest ih =>
    rw [List.map_cons]
    by_cases hq : (q.1 == k) = true
    · have hq1 : q.1 = k := by simpa using hq
      rw [if_pos hq, getVal_cons, getVal_cons,
        if_neg (show ¬(k == k2) = true by
          intro hc
          exact hne (Eq.symm (by simpa using hc : k = k2))),
        if_neg (show ¬(q.1 == k2) = true by
          intro hc
          exact hne (((by simpa using hc : q.1 = k2).symm).trans hq1))]
      exact ih
    · rw [if_neg hq, getVal_cons, getVal_cons]
      by_cases hq2 : (q.1 == k2) = true
      · rw [if_pos hq2, if_pos hq2]
      · rw [if_neg hq2, if_neg hq2]
        exact ih

theorem getVal_append_single_other (r : Row) (k k2 : String) (v : Val)
    (hne : k2 ≠ k) :
    getVal (r ++ [(k, v)]) k2 = getVal r k2 := by
  induction r with
  | nil =>
    rw [List.nil_append, getVal_cons,
      if_neg (show ¬(k == k2) = true by
        intro hc
        exact hne (Eq.symm (by simpa using hc : k = k2)))]
  | cons q rest ih =>
    rw [List.cons_append, getVal_cons, getVal_cons]
    by_cases hq2 : (q.1 == k2) = true
    · rw [if_pos hq2, if_pos hq2]
    · rw [if_neg hq2, if_neg hq2]
      exact ih

theorem getVal_setVal_other (r : Row) (k k2 : String) (v : Val)
    (hne : k2 ≠ k) : getVal (setVal r k v) k2 = getVal r k2 := by
  rw [setVal]
  by_cases h : r.any (fun p => p.1 == k) = true
  · rw [if_pos h]
    exact getVal_mapSet_other r k k2 v hne
  · rw [if_neg h]
    exact getVal_append_single_other r k k2 v hne

/-- Claim C7: for every record normalized from a raw CopyRight export,
`workflow_status` is initialized to "ToDo", `retrieved_from_copyright_on`
is stamped with the export date in `YYYY-MM-DD` format, `last_change` is
reformatted to `YYYY-MM-DD`, and `faculty` is the configured mapping's value
for the record's department, "Unmapped" if the department has no entry.
The raw record's (renamed) `last_change` is date-typed and its `department`
a string, as in a CopyRight export. -/
theorem normalizer_field_contract
    (mapping : List (String × String)) (ey em ed y m d : Nat)
    (dept : String) (raw : DF) (r0 : Row)
    (hr : r0 ∈ raw.rows)
    (hlc : getVal (renameRow r0) "last_change" = Val.date y m d)
    (hdept : getVal (renameRow r0) "department" = Val.str dept) :
    normalizeRow mapping (fmtYMD ey em ed) r0
        ∈ (normalizeDF mapping (fmtYMD ey em ed) raw).rows ∧
    getVal (normalizeRow mapping (fmtYMD ey em ed) r0) "workflow_status"
        = Val.str "ToDo" ∧
    getVal (normalizeRow mapping (fmtYMD ey em ed) r0)
        "retrieved_from_copyright_on" = Val.str (fmtYMD ey em ed) ∧
    getVal (normalizeRow mapping (fmtYMD ey em ed) r0) "last_change"
        = Val.str (fmtYMD y m d) ∧
    getVal (normalizeRow mapping (fmtYMD ey em ed) r0) "faculty"
        = Val.str (facultyOf mapping dept) := by
  refine ⟨List.mem_map_of_mem _ hr, ?_, ?_, ?_, ?_⟩
  · show getVal (setVal (setVal (setVal
        (setVal (renameRow r0) "retrieved_from_copyright_on" _)
        "workflow_status" _) "last_change" _) "faculty" _)
      "workflow_status" = _
    rw [getVal_setVal_other _ _ _ _ (by decide),
      getVal_setVal_other _ _ _ _ (by decide), getVal_setVal_same]
  · show getVal (setVal (setVal (setVal
        (setVal (renameRow r0) "retrieved_from_copyright_on" _)
        "workflow_status" _) "last_change" _) "faculty" _)
      "retrieved_from_copyright_on" = _
    rw [getVal_setVal_other _ _ _ _ (by decide),
      getVal_setVal_other _ _ _ _ (by decide),
      getVal_setVal_other _ _ _ _ (by decide), getVal_setVal_same]
  · show getVal (setVal (setVal (setVal
        (setVal (renameRow r0) "retrieved_from_copyright_on" _)
        "workflow_status" _) "last_change" _) "faculty" _)
      "last_change" = _
    rw [getVal_setVal_other _ _ _ _ (by decide), getVal_setVal_same, hlc]
    rfl
  · show getVal (setVal (setVal (setVal
        (setVal (renameRow r0) "retrieved_from_copyright_on" _)
        "workflow_status" _) "last_change" _) "faculty" _)
      "faculty" = _
    rw [getVal_setVal_same, hdept]
    rfl

/-- A raw CopyRight export row with normalized-form headers. -/
def rawExportRow : Row :=
  [("material_id", Val.str "1"), ("department", Val.str "CS"),
   ("last_change", Val.date 2024 1 15)]

/-- Witness for C7 at a concrete input: mapping CS ↦ EEMCS, export dated
2024-02-01, record last changed 2024-01-15. -/
theorem normalizer_field_contract_witness :
    normalizeRow [("CS", "EEMCS")] (fmtYMD 2024 2 1) rawExportRow
        ∈ (normalizeDF [("CS", "EEMCS")] (fmtYMD 2024 2 1)
            ⟨["material_id", "department", "last_change"],
             [rawExportRow]⟩).rows ∧
    getVal (normalizeRow [("CS", "EEMCS")] (fmtYMD 2024 2 1) rawExportRow)
        "workflow_status" = Val.str "ToDo" ∧
    getVal (normalizeRow [("CS", "EEMCS")] (fmtYMD 2024 2 1) rawExportRow)
        "retrieved_from_copyright_on" = Val.str "2024-02-01" ∧
    getVal (normalizeRow [("CS", "EEMCS")] (fmtYMD 2024 2 1) rawExportRow)
        "last_change" = Val.str "2024-01-15" ∧
    getVal (normalizeRow [("CS", "EEMCS")] (fmtYMD 2024 2 1) rawExportRow)
        "faculty" = Val.str "EEMCS" :=
  normalizer_field_contract [("CS", "EEMCS")] 2024 2 1 2024 1 15 "CS"
    ⟨["material_id", "department", "last_change"], [rawExportRow]⟩
    rawExportRow (by decide) (by decide) (by decide)

/-! ### Sheet reader: `read_sheets` and `validate_ea_sheet`
(easy_access_cli.py lines 689-750) -/

/-- Cast one cell to its string representation
(`pl.exclude(pl.Utf8).cast(str)`, line 738): strings are untouched (Utf8 is
excluded from the cast), dates render as ISO `YYYY-MM-DD`, null stays null. -/
def castStrVal : Val → Val
  | .str s => .str s
  | .date y m d => .str (fmtYMD y m d)
  | .null => .null

/-- Cast every cell of a frame to string. -/
def castStrDF (df : DF) : DF :=
  ⟨df.schema, df.rows.map (fun r => r.map (fun p => (p.1, castStrVal p.2)))⟩

/-- `validate_ea_sheet` (lines 716-750): an empty frame is invalid and
replaced by the empty `pl.DataFrame()`; otherwise every column is cast to
string.  No structural validation beyond emptiness is implemented. -/
def validateEaSheet (df : DF) : DF :=
  if df.rows.isEmpty then ⟨[], []⟩ else castStrDF df

/-- `pl.concat(file_data)` (line 711): sequential vertical stacking; all
frames must share one schema. -/
def concatAll : List DF → Except String DF
  | [] => .ok ⟨[], []⟩
  | d :: rest => rest.foldlM pconcat d

/-- `result.unique()` (line 714): collapse duplicate rows. -/
def dedupDF (df : DF) : DF :=
  ⟨df.schema, df.rows.dedup⟩

/-- One candidate file under the faculties root: its extension (with dot,
as `pathlib.Path.suffix` yields) and the table loaded from it (the
"Complete data" sheet, or the first sheet as fallback — the loading itself
is I/O and outside the embedding). -/
structure SheetFile where
  ext : String
  table : DF
deriving DecidableEq, Repr

/-- The per-file step of `read_sheets` (lines 696-709): skip files whose
extension is not a spreadsheet extension, validate, skip empty results. -/
def readOne (f : SheetFile) : Option DF :=
  if !(f.ext == ".xls" || f.ext == ".xlsx") then none
  else
    let v := validateEaSheet f.table
    if v.rows.isEmpty then none else some v

/-- `read_sheets` (lines 689-714): concatenate the valid per-file tables and
collapse duplicate rows. -/
def readSheets (files : List SheetFile) : Except String DF :=
  match concatAll (files.filterMap readOne) with
  | .ok result => .ok (dedupDF result)
  | .error e => .error e

theorem foldlM_pconcat_rows :
    ∀ (ts : List DF) (acc out : DF), ts.foldlM pconcat acc = .ok out →
      out.rows = acc.rows ++ (ts.map DF.rows).flatten := by
  intro ts
  induction ts with
  | nil =>
    intro acc out h
    rw [List.foldlM_nil] at h
    injection h with h2
    rw [← h2]
    simp
  | cons t rest ih =>
    intro acc out h
    rw [List.foldlM_cons] at h
    by_cases hs : acc.schema = t.schema
    · have h2 : rest.foldlM pconcat ⟨acc.schema, acc.rows ++ t.rows⟩ = .ok out := by
        rw [pconcat, if_pos hs] at h
        exact h
      rw [ih _ out h2]
      simp [List.append_assoc]
    · rw [pconcat, if_neg hs] at h
      exact Except.noConfusion h

theorem concatAll_rows (ts : List DF) (out : DF) (h : concatAll ts = .ok out) :
    out.rows = (ts.map DF.rows).flatten := by
  cases ts with
  | nil =>
    injection h with h2
    rw [← h2]
    rfl
  | cons t rest =>
    rw [concatAll] at h
    rw [foldlM_pconcat_rows rest t out h, List.map_cons, List.flatten_cons]

theorem readOne_eq_some (f : SheetFile) (t : DF) :
    readOne f = some t ↔
      (f.ext = ".xls" ∨ f.ext = ".xlsx") ∧ f.table.rows ≠ [] ∧
        t = castStrDF f.table := by
  rw [readOne]
  by_cases hext : (f.ext == ".xls" || f.ext == ".xlsx") = true
  · rw [if_neg (by simp [hext])]
    by_cases hrows : f.table.rows = []
    · have hv : validateEaSheet f.table = ⟨[], []⟩ := by
        rw [validateEaSheet, if_pos (by simpa using hrows)]
      rw [hv]
      simp [hrows]
    · have hv : validateEaSheet f.table = castStrDF f.table := by
        rw [validateEaSheet, if_neg (by simpa using hrows)]
      rw [hv, if_neg (show ¬ ((castStrDF f.table).rows.isEmpty = true) by
        simp [castStrDF, hrows])]
      simp only [Option.some.injEq]
      constructor
      · intro h2
        exact ⟨by simpa using hext, hrows, h2.symm⟩
      · intro h2
        exact h2.2.2.symm
  · rw [if_pos (by simpa using hext)]
    constructor
    · intro h2
      exact Option.noConfusion h2
    · intro h2
      exact absurd (by simpa using h2.1) hext

/-- Claim C8: a successful read-back returns exactly the de-duplicated
concatenation of the per-file tables that are non-empty, every cell cast to
string; files with a non-spreadsheet extension and files with an empty table
contribute no rows. -/
theorem read_sheets_dedup_union (files : List SheetFile) (out : DF)
    (h : readSheets files = .ok out) :
    (∀ r : Row, r ∈ out.rows ↔ ∃ f ∈ files,
      (f.ext = ".xls" ∨ f.ext = ".xlsx") ∧ f.table.rows ≠ [] ∧
      r ∈ (castStrDF f.table).rows) ∧
    out.rows.Nodup := by
  rw [readSheets] at h
  cases hc : concatAll (files.filterMap readOne) with
  | error e =>
    rw [hc] at h
    exact Except.noConfusion h
  | ok res =>
    rw [hc] at h
    injection h with h2
    rw [← h2]
    constructor
    · intro r
      show r ∈ res.rows.dedup ↔ _
      rw [List.mem_dedup, concatAll_rows _ _ hc, List.mem_flatten]
      constructor
      · rintro ⟨s, hs, hr⟩
        rw [List.mem_map] at hs
        obtain ⟨t, ht, rfl⟩ := hs
        rw [List.mem_filterMap] at ht
        obtain ⟨f, hf, hft⟩ := ht
        obtain ⟨he, hne, rfl⟩ := (readOne_eq_some f t).mp hft
        exact ⟨f, hf, he, hne, hr⟩
      · rintro ⟨f, hf, he, hne, hr⟩
        refine ⟨(castStrDF f.table).rows, ?_, hr⟩
        rw [List.mem_map]
        refine ⟨castStrDF f.table, ?_, rfl⟩
        rw [List.mem_filterMap]
        exact ⟨f, hf, (readOne_eq_some f (castStrDF f.table)).mpr ⟨he, hne, rfl⟩⟩
    · exact List.nodup_dedup res.rows

/-- Candidate read-back files: a valid sheet, a non-spreadsheet file, and an
empty sheet. -/
def readFilesEx : List SheetFile :=
  [⟨".xlsx", ⟨["material_id"], [[("material_id", Val.str "1")]]⟩⟩,
   ⟨".txt", ⟨["material_id"], [[("material_id", Val.str "2")]]⟩⟩,
   ⟨".xlsx", ⟨["material_id"], []⟩⟩]

/-- Witness for C8: only the valid non-empty spreadsheet contributes. -/
theorem read_sheets_dedup_union_witness :
    ([("material_id", Val.str "1")] : Row)
        ∈ (⟨["material_id"], [[("material_id", Val.str "1")]]⟩ : DF).rows ∧
    (⟨["material_id"], [[("material_id", Val.str "1")]]⟩ : DF).rows.Nodup := by
  have h := read_sheets_dedup_union readFilesEx
    ⟨["material_id"], [[("material_id", Val.str "1")]]⟩ rfl
  exact ⟨(h.1 _).mpr (by decide), h.2⟩

/-! ### Review-sheet augmenter: the data-entry validations of
`finalize_sheet` (easy_access_cli.py lines 594-657) -/

/-- `col_names` (lines 609-610): the headers written to row 1 of the
data-entry sheet, in column order. -/
def colNames : List String :=
  ["url", "workflow_status", "manual_classification", "scope", "remarks",
   "ml_prediction", "material_id", "title", "owner", "author", "department",
   "course_name"]

/-- `dropdowndata` (lines 634-636): per constrained column, the 1-based
column number, the column letter, and the Excel list formula. -/
def dropdowndata : List (Nat × String × String) :=
  [(2, "B", "\"ToDo,Done,InProgress\""),
   (3, "C", "\"open access, eigen materiaal - powerpoint, eigen materiaal - overig, lange overname, eigen materiaal - titelindicatie\"")]

/-- One `openpyxl` `DataValidation` as configured by `finalize_sheet`. -/
structure DataValidationSpec where
  targetColNum : Nat
  colLetter : String
  formula1 : String
  allowBlank : Bool
  errorMsg : String
  errorTitle : String
  promptMsg : String
  promptTitle : String
deriving DecidableEq, Repr

/-- The loop of lines 637-644: one list-type validation per `dropdowndata`
entry, `allow_blank=False`, with the fixed error/prompt message pairs. -/
def entryValidations : List DataValidationSpec :=
  dropdowndata.map (fun t =>
    ⟨t.1, t.2.1, t.2.2, false,
     "Please select a valid option from the list", "Invalid option",
     "Please select from the list", "List selection"⟩)

/-- Split a character list on commas (how a spreadsheet application reads an
embedded `"a,b,c"` list formula). -/
def splitCommaAux : List Char → List Char → List String
  | [], acc => [String.mk acc.reverse]
  | c :: rest, acc =>
    if c = ',' then String.mk acc.reverse :: splitCommaAux rest []
    else splitCommaAux rest (c :: acc)

/-- The value set embedded in a quoted Excel list formula. -/
def listVals (formula : String) : List String :=
  splitCommaAux (formula.data.drop 1).dropLast []

/-- Claim C9: every finalized sheet carries exactly two constrained-choice
validations: column B — whose header (`col_names[1]`) is `workflow_status` —
restricted to {ToDo, Done, InProgress}, and column C — whose header is
`manual_classification` — restricted to the fixed five classification
labels; both disallow blanks and carry the configured error and prompt
message/title pairs. -/
theorem entry_sheet_validations :
    entryValidations.length = 2 ∧
    (∃ v1 v2 : DataValidationSpec, entryValidations = [v1, v2] ∧
      v1.targetColNum = 2 ∧ v1.colLetter = "B" ∧
      colNames.getD (v1.targetColNum - 1) "" = "workflow_status" ∧
      listVals v1.formula1 = ["ToDo", "Done", "InProgress"] ∧
      v1.allowBlank = false ∧
      v1.errorMsg = "Please select a valid option from the list" ∧
      v1.errorTitle = "Invalid option" ∧
      v1.promptMsg = "Please select from the list" ∧
      v1.promptTitle = "List selection" ∧
      v2.targetColNum = 3 ∧ v2.colLetter = "C" ∧
      colNames.getD (v2.targetColNum - 1) "" = "manual_classification" ∧
      listVals v2.formula1 = ["open access", " eigen materiaal - powerpoint",
        " eigen materiaal - overig", " lange overname",
        " eigen materiaal - titelindicatie"] ∧
      v2.allowBlank = false ∧
      v2.errorMsg = "Please select a valid option from the list" ∧
      v2.errorTitle = "Invalid option" ∧
      v2.promptMsg = "Please select from the list" ∧
      v2.promptTitle = "List selection") := by
  refine ⟨rfl, ⟨entryValidations.getD 0 ⟨0, "", "", true, "", "", "", ""⟩,
    entryValidations.getD 1 ⟨0, "", "", true, "", "", "", ""⟩, ?_⟩⟩
  decide

end EaCli
